import Mathlib

/-!
Verification development for the salary aggregation and filtering pipeline of
`src/pages/page2.py` (the "Graph of Median Salaries" page).

The Python pipeline is shallowly embedded:
  tables are lists of records, pandas boolean-mask filtering is `List.filter`,
  salaries (pandas floats holding whole-dollar figures in every property of
  interest) are `Int`, the per-state median (which performs real division and
  which no property below inspects) is valued in `Rat`.

Modelling notes, each justified at the definition it concerns:
  * `Series.str.contains(term, case=False)` uses `re.search` with the default
    `regex=True`; the regex dialect is embedded for patterns built from
    literal characters and the metacharacter '.' (the fragment the theorems
    below quantify over, via `supportedPattern`).
  * `Series.mode()` returns the tied-for-most-frequent values in sorted
    (ascending) order, so `.mode().iloc[0]` is the least modal value in
    Python's lexicographic string order.
  * `Series.idxmax()` returns the index label of the first occurrence of the
    maximum.
  * `pd.read_csv` raises `FileNotFoundError` for a missing path; other read
    failures (e.g. `PermissionError` for an unreadable file) are different
    exception classes and escape the `except FileNotFoundError` clause at
    page2.py line 43.
-/

/-! ## String and character utilities -/

/-- ASCII uppercase test, as used by the character class `[A-Z]` in the state
extraction regex of page2.py line 86. -/
def isUpperAZ (c : Char) : Bool := decide ('A' ≤ c) && decide (c ≤ 'Z')

/-- Whitespace characters: the ASCII set matched both by Python's `str.strip()`
and by the regex class `\s` (the embedding restricts to the ASCII subset of
Python's unicode whitespace). -/
def isPyWhitespace (c : Char) : Bool :=
  c = ' ' || c = '\t' || c = '\n' || c = '\r' || c = '\x0b' || c = '\x0c'

/-- ASCII lower-casing of one character, modelling the case folding performed
by `re.IGNORECASE` (restricted to ASCII letters). -/
def lowerChar (c : Char) : Char :=
  if isUpperAZ c then Char.ofNat (c.toNat + 32) else c

/-- Python's `str.strip()`: remove leading and trailing whitespace. -/
def pyStrip (s : String) : String :=
  ⟨((s.data.dropWhile isPyWhitespace).reverse.dropWhile isPyWhitespace).reverse⟩

/-- Boolean lexicographic order on character lists, by code point: the order
Python uses to compare `str` values (and hence the order in which pandas sorts
the result of `Series.mode()` on a string column). -/
def charListLtb : List Char → List Char → Bool
  | [], [] => false
  | [], _ :: _ => true
  | _ :: _, [] => false
  | a :: as, b :: bs => if a < b then true else if b < a then false else charListLtb as bs

/-- Boolean lexicographic order on strings, by code point. -/
def strLtb (a b : String) : Bool := charListLtb a.data b.data

/-- Minimum of two strings in code-point lexicographic order. -/
def minStr (a b : String) : String := if strLtb b a then b else a

/-! ## The regex fragment used by the search filter

Page2.py line 175 runs `filtered_df['job_title'].str.contains(search_term,
case=False)`, i.e. `re.search(search_term, title, re.IGNORECASE)` on each
title. The embedding interprets the pattern over the fragment consisting of
literal characters and the metacharacter '.' (any character except newline);
`supportedPattern` below delimits this fragment, and every theorem whose truth
depends on the pattern's meaning carries it as a hypothesis. -/

/-- One token of a parsed search pattern: a literal character or the
metacharacter '.'. -/
inductive Tok where
  | lit (c : Char)
  | dot
deriving DecidableEq

/-- Tokenize a pattern string over the supported fragment: '.' is the
any-character metacharacter, every other character is a literal. -/
def tokenize (cs : List Char) : List Tok :=
  cs.map fun c => if c = '.' then Tok.dot else Tok.lit c

/-- Match a token list against the beginning of a character list,
case-insensitively ('.' matches any character but newline, per `re` without
`DOTALL`). -/
def tokMatch : List Tok → List Char → Bool
  | [], _ => true
  | _ :: _, [] => false
  | Tok.lit c :: ts, x :: xs => (lowerChar x = lowerChar c) && tokMatch ts xs
  | Tok.dot :: ts, x :: xs => (x ≠ '\n') && tokMatch ts xs

/-- Attempt the token match at every start position, leftmost first: the
semantics of `re.search`. -/
def searchToks (ts : List Tok) : List Char → Bool
  | [] => tokMatch ts []
  | x :: xs => tokMatch ts (x :: xs) || searchToks ts xs

/-- Model of `title.str.contains(pat, case=False)` for one title, over the
supported pattern fragment: case-insensitive `re.search` of `pat` in
`title`. -/
def strContainsCI (title pat : String) : Bool := searchToks (tokenize pat.data) title.data

/-- Characters with a special meaning in Python regular expressions (outside
character classes). -/
def isRegexSpecialChar (c : Char) : Bool :=
  c = '.' || c = '^' || c = '$' || c = '*' || c = '+' || c = '?' ||
  c = '\x7b' || c = '\x7d' || c = '[' || c = ']' || c = '\\' || c = '|' ||
  c = '(' || c = ')'

/-- The pattern fragment over which the embedding of `str.contains` is
faithful: every character is either the metacharacter '.' or a
non-special literal. -/
def supportedPattern (s : String) : Bool :=
  s.data.all fun c => c = '.' || !(isRegexSpecialChar c)

/-- A search-box value lies in the supported fragment (absent values
trivially do). -/
def supportedTerm : Option String → Bool
  | none => true
  | some s => supportedPattern s

/-! ## Spec-side definition: case-insensitive substring containment

The specification describes the search filter as keeping "rows whose
`job_title` contains the term as a case-insensitive substring". This
definition follows those words (it is compared against the code-derived
`strContainsCI` in the theorems for claim C3). -/

/-- Case-insensitive test that `pat` occurs at the very beginning of `l`. -/
def prefCI : List Char → List Char → Bool
  | [], _ => true
  | _ :: _, [] => false
  | c :: cs, x :: xs => (lowerChar x = lowerChar c) && prefCI cs xs

/-- Case-insensitive test that `pat` occurs somewhere in `l`. -/
def substrAuxCI (pat : List Char) : List Char → Bool
  | [] => prefCI pat []
  | x :: xs => prefCI pat (x :: xs) || substrAuxCI pat xs

/-- Case-insensitive substring containment of `pat` in `title`, the relation
the specification's words describe. -/
def substrCI (title pat : String) : Bool := substrAuxCI pat.data title.data

/-- True when a character list begins with a comma. -/
def startsWithComma (l : List Char) : Bool :=
  match l with
  | c :: _ => c = ','
  | [] => false

/-! ## Data model: the loader pipeline (`load_and_prepare_data`, page2.py lines 28-93)

A raw listing row carries the four source columns that survive the projection
(three projected fields plus the join key `salary.salaries`); a raw salary row
carries its `id` key and the two projected salary columns. Missing cells
(pandas `NaN`) are `none`. -/

/-- One row of `glassdoor.csv`, restricted to the columns the pipeline
reads: `map.location`, `header.jobTitle`, `overview.industry` and the join
key `salary.salaries`. -/
structure MainRow where
  location : Option String
  jobTitle : Option String
  industry : Option String
  salaryRef : Option Int
deriving DecidableEq

/-- One row of `glassdoor_salary_salaries.csv`, restricted to the columns the
pipeline reads: the key `id`, the percentile-50 salary and the pay period. -/
structure SalaryRow where
  id : Int
  percentile50 : Option Int
  payPeriod : Option String
deriving DecidableEq

/-- A row of `df_merged` after projection to the five required columns and
renaming (page2.py lines 53-68); each field may still be missing. -/
structure MergedRow where
  location : Option String
  job_title : Option String
  industry : Option String
  median_salary : Option Int
  pay_period : Option String
deriving DecidableEq

/-- Build a projected merged row from a listing row and its (possible) salary
match; an unmatched listing receives null salary fields, as under a pandas
left merge. -/
def mergeRow (m : MainRow) (s : Option SalaryRow) : MergedRow :=
  { location := m.location
    job_title := m.jobTitle
    industry := m.industry
    median_salary := s.bind SalaryRow.percentile50
    pay_period := s.bind SalaryRow.payPeriod }

/-- Left merge of the listings onto the salaries (page2.py line 49,
`pd.merge(df_main, df_salaries, left_on='salary.salaries', right_on='id',
how='left')`): every listing row is preserved; a row whose key matches
salary rows produces one output row per match, and a row with no match (or a
null key, which in pandas matches nothing) produces one output row with null
salary fields. -/
def leftMerge (mains : List MainRow) (sals : List SalaryRow) : List MergedRow :=
  mains.flatMap fun m =>
    match m.salaryRef with
    | none => [mergeRow m none]
    | some k =>
      match sals.filter (fun s => s.id == k) with
      | [] => [mergeRow m none]
      | l => l.map fun s => mergeRow m (some s)

/-- A row of `df_clean` after `dropna` on the five required fields
(page2.py line 69): every field is present. -/
structure CleanRow where
  location : String
  job_title : String
  industry : String
  median_salary : Int
  pay_period : String
deriving DecidableEq

/-- Keep a merged row only when all five required fields are present
(`dropna(subset=['location', 'median_salary', 'job_title', 'pay_period',
'industry'])`, page2.py line 69). -/
def dropnaRow : MergedRow → Option CleanRow
  | ⟨some l, some j, some i, some m, some p⟩ => some ⟨l, j, i, m, p⟩
  | _ => none

/-- The `dropna` step applied to the whole merged table. -/
def dropnaTable (l : List MergedRow) : List CleanRow := l.filterMap dropnaRow

/-- The salary standardization helper of page2.py lines 74-79: HOURLY pay is
annualized by 2080 (40 hours/week times 52 weeks), MONTHLY by 12, and any
other pay period is assumed already annual and passed through unchanged. -/
def standardize_salary (r : CleanRow) : Int :=
  let salary := r.median_salary
  let period := r.pay_period
  if period = "HOURLY" then salary * 2080
  else if period = "MONTHLY" then salary * 12
  else salary

/-- The `df_clean['median_salary'] = df_clean.apply(standardize_salary,
axis=1)` step (page2.py line 82). -/
def applyStandardize (r : CleanRow) : CleanRow :=
  { r with median_salary := standardize_salary r }

/-- Model of `df_clean['location'].str.extract(r',\s*([A-Z]{2})$')` (page2.py
line 86) for one location string: searching for the pattern is equivalent to
requiring that the string end in two uppercase letters preceded (going
backwards, over whitespace only) by a comma; the captured group is those two
letters. Returns `none` when the pattern does not match anywhere. -/
def extractState (loc : String) : Option String :=
  match loc.data.reverse with
  | c1 :: c2 :: rest =>
    if isUpperAZ c1 && isUpperAZ c2 && startsWithComma (rest.dropWhile isPyWhitespace)
    then some ⟨[c2, c1]⟩ else none
  | _ => none

/-- A fully cleaned USA listing: a row of the table `df_usa` returned by
`load_and_prepare_data`. -/
structure Row where
  location : String
  job_title : String
  industry : String
  median_salary : Int
  pay_period : String
  state : String
deriving DecidableEq

/-- Attach the extracted state to a clean row; rows whose location does not
match the pattern become `none` and are dropped by the subsequent
`dropna(subset=['state'])` (page2.py lines 86-88). -/
def addState (r : CleanRow) : Option Row :=
  (extractState r.location).map fun st =>
    ⟨r.location, r.job_title, r.industry, r.median_salary, r.pay_period, st⟩

/-- The in-memory pipeline of `load_and_prepare_data` after a successful read:
left merge, projection with `dropna`, salary standardization, state
extraction with `dropna`, and removal of the `-1` industry sentinel
(page2.py lines 49-93). -/
def prepareData (mains : List MainRow) (sals : List SalaryRow) : List Row :=
  let df_merged := leftMerge mains sals
  let df_clean := (dropnaTable df_merged).map applyStandardize
  let df_usa := df_clean.filterMap addState
  df_usa.filter fun r => r.industry ≠ "-1"

/-- The outcome of the two `pd.read_csv` calls (page2.py lines 40-41): both
files read successfully, a file missing from disk (`FileNotFoundError`), or a
file present but unreadable or unparsable (`PermissionError`,
`pd.errors.ParserError`, ... — exception classes other than
`FileNotFoundError`). -/
inductive ReadOutcome where
  | ok (mainCols salaryCols : List String) (mains : List MainRow) (sals : List SalaryRow)
  | fileNotFound
  | unreadable
deriving DecidableEq

/-- The five projected column names required in the merged table
(page2.py lines 53-59). -/
def requiredColumns : List String :=
  ["map.location", "header.jobTitle", "overview.industry",
   "salary.salaries.val.salaryPercentileMap.payPercentile50",
   "salary.salaries.val.payPeriod"]

/-- Model of `load_and_prepare_data` (page2.py lines 28-93). The `try` block
catches exactly `FileNotFoundError` (line 43) and returns an empty table; any
other exception raised while reading (an unreadable file) escapes the handler
and propagates to the caller, modelled as `Except.error`. On a successful
read, the merged table's columns are those of both files; if any required
column is absent the function returns the empty table (lines 61-63),
otherwise it runs the cleaning pipeline. -/
def load_and_prepare_data : ReadOutcome → Except String (List Row)
  | ReadOutcome.fileNotFound => Except.ok []
  | ReadOutcome.unreadable => Except.error "uncaught read exception"
  | ReadOutcome.ok mainCols salaryCols mains sals =>
    if requiredColumns.all (fun c => (mainCols ++ salaryCols).contains c)
    then Except.ok (prepareData mains sals)
    else Except.ok []

/-! ## Filter Engine (`update_map_and_cards`, page2.py lines 171-185) -/

/-- True when the callback applies the job-title search at all: the Python
condition `search_term and search_term.strip() != ''` (page2.py line 174), in
which `None` and the empty string are falsy. -/
def searchActive : Option String → Bool
  | none => false
  | some s => (!(s = "")) && (!(pyStrip s = ""))

/-- The job-title search step (page2.py lines 174-175): when active, keep the
rows whose `job_title` matches the term under
`str.contains(search_term, case=False)`. -/
def searchFilter (search_term : Option String) (df : List Row) : List Row :=
  match search_term with
  | none => df
  | some s =>
    if (!(s = "")) && (!(pyStrip s = "")) then
      df.filter fun r => strContainsCI r.job_title s
    else df

/-- The industry filter step (page2.py lines 181-182): unless the sentinel
"All Industries" is selected, keep the rows whose `industry` equals the
selection exactly. -/
def industryFilter (selected_industry : String) (df : List Row) : List Row :=
  if selected_industry ≠ "All Industries" then
    df.filter fun r => r.industry = selected_industry
  else df

/-- The full filter of the callback, in source order: the search filter first
(line 175), then the industry filter (line 182). -/
def filterTable (df : List Row) (selected_industry : String) (search_term : Option String) : List Row :=
  industryFilter selected_industry (searchFilter search_term df)

/-- The row predicate of the search step viewed as a single boolean test
(true on every row when the search is inactive). -/
def searchPred (search_term : Option String) (r : Row) : Bool :=
  match search_term with
  | none => true
  | some s =>
    if (!(s = "")) && (!(pyStrip s = "")) then strContainsCI r.job_title s else true

/-- The row predicate of the industry step viewed as a single boolean test
(true on every row under the "All Industries" sentinel). -/
def industryPred (selected_industry : String) (r : Row) : Bool :=
  if selected_industry ≠ "All Industries" then r.industry = selected_industry else true

/-! ## Aggregator (`update_map_and_cards`, page2.py lines 193-211) -/

/-- Largest element of a list under a linear order, with default `d` for the
empty list (pandas `max()` over a non-empty column). -/
def listMaxD {α : Type} [LinearOrder α] (d : α) : List α → α
  | [] => d
  | x :: xs => xs.foldl max x

/-- The maximum `median_salary` of a table (`filtered_df['median_salary'].max()`
overall, and the `'max'` aggregation per state). -/
def maxSalary (rows : List Row) : Int := listMaxD 0 (rows.map Row.median_salary)

/-- Number of occurrences of `x` in `l` (pandas value counts). -/
def countOcc (x : String) (l : List String) : Nat := l.count x

/-- The highest occurrence count over a list of strings. -/
def maxFreq (l : List String) : Nat := listMaxD 0 (l.dedup.map fun x => l.count x)

/-- The modal values of a list of strings: the distinct values whose count
attains the maximum (the value set of pandas `Series.mode()`). -/
def modesOf (l : List String) : List String :=
  l.dedup.filter fun x => l.count x = maxFreq l

/-- Least string of a list in code-point lexicographic order, with default
`d` for the empty list. -/
def lexMinD (d : String) : List String → String
  | [] => d
  | x :: xs => xs.foldl minStr x

/-- Model of `x.mode().iloc[0] if not x.mode().empty else "N/A"` (page2.py
lines 195 and 202): `Series.mode()` returns the modal values in ascending
sorted order, so its first entry is the least modal value in Python's
lexicographic string order; on an empty series the fallback is "N/A". -/
def commonJob (l : List String) : String := lexMinD "N/A" (modesOf l)

/-- Insert an integer into a sorted list of integers (ascending). -/
def insertInt (x : Int) : List Int → List Int
  | [] => [x]
  | y :: ys => if x ≤ y then x :: y :: ys else y :: insertInt x ys

/-- Sort a list of integers ascending (insertion sort). -/
def sortInts (l : List Int) : List Int := l.foldr insertInt []

/-- Median of a list of integer salaries, valued in `Rat` as pandas computes
it: middle element of the sorted values for odd length, mean of the two
middle elements for even length (0 for an empty list, which the callback
never reaches). -/
def medianSalary (l : List Int) : Rat :=
  let s := sortInts l
  let n := s.length
  if n = 0 then 0
  else if n % 2 = 1 then ((s.getD (n / 2) 0 : Int) : Rat)
  else (((s.getD (n / 2 - 1) 0 + s.getD (n / 2) 0 : Int) : Rat)) / 2

/-- The rows of one state group, in the filtered table's row order (pandas
`groupby` preserves the original order of rows within each group). -/
def stateRows (df : List Row) (s : String) : List Row := df.filter fun r => r.state = s

/-- Insert a string into a sorted list of strings (ascending, code-point
lexicographic). -/
def insertStr (x : String) : List String → List String
  | [] => [x]
  | y :: ys => if strLtb y x then y :: insertStr x ys else x :: y :: ys

/-- Sort a list of strings ascending (insertion sort). -/
def sortStrs (l : List String) : List String := l.foldr insertStr []

/-- The grouping keys: the distinct states of the filtered table, in the
ascending sorted order pandas `groupby(sort=True)` uses. -/
def statesOf (df : List Row) : List String := sortStrs (df.map Row.state).dedup

/-- One row of the final per-state aggregate `df_final_agg` (page2.py lines
199-211): the `groupby('state').agg(...)` fields merged with the
highest-paid-job column. -/
structure StateAgg where
  state : String
  median_salary : Rat
  max_salary : Int
  common_job : String
  highest_paid_job : String
deriving DecidableEq

/-- The aggregate row of one state (page2.py lines 199-208): median and max of
the group's salaries, the group's modal job title via
`x.mode().iloc[0]`, and — via
`filtered_df.loc[filtered_df.groupby('state')['median_salary'].idxmax()]` —
the `job_title` of the group's first row attaining the maximum salary
(`idxmax` returns the first occurrence of the maximum). -/
def aggRow (df : List Row) (s : String) : StateAgg :=
  let g := stateRows df s
  { state := s
    median_salary := medianSalary (g.map Row.median_salary)
    max_salary := maxSalary g
    common_job := commonJob (g.map Row.job_title)
    highest_paid_job :=
      ((g.find? fun r => r.median_salary = maxSalary g).map Row.job_title).getD "N/A" }

/-- The full per-state aggregate table `df_final_agg`, one row per distinct
state of the filtered table. -/
def stateAggTable (df : List Row) : List StateAgg := (statesOf df).map (aggRow df)

/-! ## The callback (`update_map_and_cards`, page2.py lines 164-248) -/

/-- The value of the callback, with figure construction and number formatting
(presentation concerns) abstracted away: `noData` is the early return of
page2.py lines 167-168 (the cached table is empty), `noMatches` the early
return of lines 188-191 (the filters matched no rows); both carry the two
"N/A" card strings. `ok` carries the overall max salary, the overall most
common job and the per-state aggregate table. -/
inductive UpdateResult where
  | noData (maxCard commonCard : String)
  | noMatches (maxCard commonCard : String)
  | ok (overall_max_salary : Int) (overall_common_job : String) (agg : List StateAgg)
deriving DecidableEq

/-- Model of the callback body `update_map_and_cards(selected_industry,
search_term)` (page2.py lines 164-248), with the process-wide cached table
`df` passed explicitly. -/
def update_map_and_cards (df : List Row) (selected_industry : String)
    (search_term : Option String) : UpdateResult :=
  if df = [] then UpdateResult.noData "N/A" "N/A"
  else
    let filtered_df := filterTable df selected_industry search_term
    if filtered_df = [] then UpdateResult.noMatches "N/A" "N/A"
    else
      UpdateResult.ok (maxSalary filtered_df)
        (commonJob (filtered_df.map Row.job_title))
        (stateAggTable filtered_df)

/-- The overall most-common-job card of a callback result, when the result
carries data. -/
def overallCommonOf : UpdateResult → Option String
  | UpdateResult.ok _ c _ => some c
  | _ => none

/-! ## Spec-side definitions for the tie-break claims -/

/-- Tie-breaking rule as the specification words it: among the values tied
for the maximum frequency, the one whose first occurrence comes first in row
order (the first element of the list attaining the maximal count). -/
def firstRowOrderMode (l : List String) : Option String :=
  l.find? fun x => l.count x = maxFreq l

/-- The relation the amended claim C1 asserts between a list of job titles
and the chosen "most common job": the choice is a member, its count is
maximal, and it precedes every equally frequent title in code-point
lexicographic order. -/
def ModeLexMin (g : List String) (c : String) : Prop :=
  c ∈ g ∧ (∀ x ∈ g, g.count x ≤ g.count c) ∧
    (∀ x ∈ g, g.count x = g.count c → strLtb x c = false)

/-! ## Concrete sample data (used by witnesses and counterexamples) -/

/-- A cleaned listing in New York with salary 80000 and job title "X". -/
def rowX : Row := ⟨"A, NY", "X", "Tech", 80000, "ANNUAL", "NY"⟩

/-- A cleaned listing in New York with salary 120000 and job title "Y". -/
def rowY : Row := ⟨"B, NY", "Y", "Tech", 120000, "ANNUAL", "NY"⟩

/-- A cleaned listing whose job title is "Data Scientist". -/
def rowDS : Row := ⟨"A, NY", "Data Scientist", "Tech", 90000, "ANNUAL", "NY"⟩

/-- A cleaned listing whose job title is "Data Analyst". -/
def rowDA : Row := ⟨"B, NY", "Data Analyst", "Tech", 95000, "ANNUAL", "NY"⟩

/-- A raw listing row with all fields present and salary reference 7. -/
def sampleMain : MainRow := ⟨some "New York, NY", some "Data Engineer", some "Tech", some 7⟩

/-- A raw salary row with id 7, annual pay period and percentile-50 salary
100000. -/
def sampleSalary : SalaryRow := ⟨7, some 100000, some "ANNUAL"⟩

/-- The cleaned row the loader produces from `sampleMain` joined to
`sampleSalary`. -/
def sampleRow : Row := ⟨"New York, NY", "Data Engineer", "Tech", 100000, "ANNUAL", "NY"⟩

/-- Header of the listings file restricted to the columns the pipeline uses. -/
def mainColsSample : List String :=
  ["map.location", "header.jobTitle", "overview.industry", "salary.salaries"]

/-- Header of the salaries file restricted to the columns the pipeline uses. -/
def salaryColsSample : List String :=
  ["id", "salary.salaries.val.salaryPercentileMap.payPercentile50",
   "salary.salaries.val.payPeriod"]

/-! ## Helper lemmas: folds over linear orders -/

theorem foldl_max_eq_or_mem {α : Type} [LinearOrder α] :
    ∀ (xs : List α) (a : α), xs.foldl max a = a ∨ xs.foldl max a ∈ xs := by
  intro xs
  induction xs with
  | nil => intro a; exact Or.inl rfl
  | cons y ys ih =>
    intro a
    simp only [List.foldl_cons]
    rcases ih (max a y) with h | h
    · rcases max_choice a y with hm | hm
      · exact Or.inl (h.trans hm)
      · exact Or.inr (by rw [h, hm]; exact List.mem_cons_self _ _)
    · exact Or.inr (List.mem_cons_of_mem _ h)

theorem le_foldl_max {α : Type} [LinearOrder α] :
    ∀ (xs : List α) (a : α), a ≤ xs.foldl max a := by
  intro xs
  induction xs with
  | nil => intro a; exact le_rfl
  | cons y ys ih =>
    intro a
    simp only [List.foldl_cons]
    exact le_trans (le_max_left a y) (ih (max a y))

theorem le_foldl_max_of_mem {α : Type} [LinearOrder α] :
    ∀ (xs : List α) (a x : α), x ∈ xs → x ≤ xs.foldl max a := by
  intro xs
  induction xs with
  | nil => intro a x hx; cases hx
  | cons y ys ih =>
    intro a x hx
    simp only [List.foldl_cons]
    rcases List.mem_cons.mp hx with rfl | hx
    · exact le_trans (le_max_right a x) (le_foldl_max ys (max a x))
    · exact ih (max a y) x hx

theorem listMaxD_mem {α : Type} [LinearOrder α] (d : α) (l : List α) (h : l ≠ []) :
    listMaxD d l ∈ l := by
  cases l with
  | nil => exact absurd rfl h
  | cons x xs =>
    show xs.foldl max x ∈ x :: xs
    rcases foldl_max_eq_or_mem xs x with he | hm
    · rw [he]; exact List.mem_cons_self _ _
    · exact List.mem_cons_of_mem _ hm

theorem le_listMaxD {α : Type} [LinearOrder α] (d : α) (l : List α) (x : α) (h : x ∈ l) :
    x ≤ listMaxD d l := by
  cases l with
  | nil => cases h
  | cons y ys =>
    show x ≤ ys.foldl max y
    rcases List.mem_cons.mp h with rfl | h
    · exact le_foldl_max ys x
    · exact le_foldl_max_of_mem ys y x h


/-! ## Helper lemmas: the code-point lexicographic order -/

theorem charListLtb_irrefl : ∀ (l : List Char), charListLtb l l = false := by
  intro l
  induction l with
  | nil => rfl
  | cons c cs ih =>
    show charListLtb (c :: cs) (c :: cs) = false
    simp only [charListLtb, lt_irrefl, if_false, ih, if_neg (lt_irrefl c)]

theorem charListLtb_trans :
    ∀ (a b c : List Char), charListLtb a b = true → charListLtb b c = true →
      charListLtb a c = true := by
  intro a
  induction a with
  | nil =>
    intro b c hab hbc
    cases b with
    | nil => simp [charListLtb] at hab
    | cons y ys =>
      cases c with
      | nil => simp [charListLtb] at hbc
      | cons z zs => rfl
  | cons x xs ih =>
    intro b c hab hbc
    cases b with
    | nil => simp [charListLtb] at hab
    | cons y ys =>
      cases c with
      | nil => simp [charListLtb] at hbc
      | cons z zs =>
        simp only [charListLtb] at hab hbc ⊢
        by_cases hxy : x < y
        · by_cases hyz : y < z
          · rw [if_pos (lt_trans hxy hyz)]
          · rw [if_neg hyz] at hbc
            by_cases hzy : z < y
            · rw [if_pos hzy] at hbc; cases hbc
            · have hyez : y = z := le_antisymm (not_lt.mp hzy) (not_lt.mp hyz)
              subst hyez
              rw [if_pos hxy]
        · rw [if_neg hxy] at hab
          by_cases hyx : y < x
          · rw [if_pos hyx] at hab; cases hab
          · have hxey : x = y := le_antisymm (not_lt.mp hyx) (not_lt.mp hxy)
            subst hxey
            rw [if_neg hyx] at hab
            by_cases hxz : x < z
            · rw [if_pos hxz]
            · rw [if_neg hxz] at hbc
              by_cases hzx : z < x
              · rw [if_pos hzx] at hbc; cases hbc
              · have hxez : x = z := le_antisymm (not_lt.mp hzx) (not_lt.mp hxz)
                subst hxez
                rw [if_neg hzx] at hbc ⊢
                rw [if_neg hxz]
                exact ih ys zs hab hbc

theorem charListLtb_connex :
    ∀ (a b : List Char), charListLtb a b = false → charListLtb b a = false → a = b := by
  intro a
  induction a with
  | nil =>
    intro b hab _
    cases b with
    | nil => rfl
    | cons y ys => simp [charListLtb] at hab
  | cons x xs ih =>
    intro b hab hba
    cases b with
    | nil => simp [charListLtb] at hba
    | cons y ys =>
      simp only [charListLtb] at hab hba
      by_cases hxy : x < y
      · rw [if_pos hxy] at hab; cases hab
      · by_cases hyx : y < x
        · rw [if_pos hyx] at hba; cases hba
        · have hxey : x = y := le_antisymm (not_lt.mp hyx) (not_lt.mp hxy)
          subst hxey
          rw [if_neg hxy, if_neg hxy] at hab
          rw [if_neg hxy, if_neg hxy] at hba
          rw [ih ys hab hba]

theorem strLtb_irrefl (s : String) : strLtb s s = false := charListLtb_irrefl s.data

theorem strLtb_trans {a b c : String} (hab : strLtb a b = true) (hbc : strLtb b c = true) :
    strLtb a c = true := charListLtb_trans a.data b.data c.data hab hbc

theorem strLtb_connex {a b : String} (hab : strLtb a b = false) (hba : strLtb b a = false) :
    a = b := by
  cases a with
  | mk da =>
    cases b with
    | mk db => exact congrArg String.mk (charListLtb_connex da db hab hba)

theorem strLtb_false_trans {p q r : String} (h1 : strLtb p q = false)
    (h2 : strLtb q r = false) : strLtb p r = false := by
  cases hpr : strLtb p r with
  | false => rfl
  | true =>
    cases hqp : strLtb q p with
    | true =>
      have h3 : strLtb q r = true := strLtb_trans hqp hpr
      rw [h2] at h3; cases h3
    | false =>
      have hpq : p = q := strLtb_connex h1 hqp
      subst hpq
      rw [h2] at hpr; cases hpr

/-! ## Helper lemmas: folds over the string minimum -/

theorem minStr_cases (a b : String) : minStr a b = a ∨ minStr a b = b := by
  by_cases h : strLtb b a = true
  · exact Or.inr (by simp only [minStr, if_pos h])
  · exact Or.inl (by simp only [minStr, if_neg h])

theorem foldl_minStr_eq_or_mem :
    ∀ (xs : List String) (a : String), xs.foldl minStr a = a ∨ xs.foldl minStr a ∈ xs := by
  intro xs
  induction xs with
  | nil => intro a; exact Or.inl rfl
  | cons y ys ih =>
    intro a
    simp only [List.foldl_cons]
    rcases ih (minStr a y) with h | h
    · rcases minStr_cases a y with hm | hm
      · exact Or.inl (h.trans hm)
      · exact Or.inr (by rw [h, hm]; exact List.mem_cons_self _ _)
    · exact Or.inr (List.mem_cons_of_mem _ h)

theorem foldl_minStr_not_lt_acc :
    ∀ (xs : List String) (a : String), strLtb a (xs.foldl minStr a) = false := by
  intro xs
  induction xs with
  | nil => intro a; exact strLtb_irrefl a
  | cons y ys ih =>
    intro a
    simp only [List.foldl_cons]
    by_cases h : strLtb y a = true
    · have hacc : minStr a y = y := by simp only [minStr, if_pos h]
      rw [hacc]
      cases hc : strLtb a (ys.foldl minStr y) with
      | false => rfl
      | true =>
        have h3 : strLtb y (ys.foldl minStr y) = true := strLtb_trans h hc
        rw [ih y] at h3; cases h3
    · have hacc : minStr a y = a := by simp only [minStr, if_neg h]
      rw [hacc]
      exact ih a

theorem foldl_minStr_not_lt :
    ∀ (xs : List String) (a x : String), x ∈ xs → strLtb x (xs.foldl minStr a) = false := by
  intro xs
  induction xs with
  | nil => intro a x hx; cases hx
  | cons y ys ih =>
    intro a x hx
    simp only [List.foldl_cons]
    rcases List.mem_cons.mp hx with rfl | hx
    · by_cases h : strLtb x a = true
      · have hacc : minStr a x = x := by simp only [minStr, if_pos h]
        rw [hacc]
        exact foldl_minStr_not_lt_acc ys x
      · have hxa : strLtb x a = false := by
          cases hv : strLtb x a with
          | false => rfl
          | true => exact absurd hv h
        have hacc : minStr a x = a := by simp only [minStr, if_neg h]
        rw [hacc]
        exact strLtb_false_trans hxa (foldl_minStr_not_lt_acc ys a)
    · exact ih (minStr a y) x hx

theorem lexMinD_mem (d : String) (l : List String) (h : l ≠ []) : lexMinD d l ∈ l := by
  cases l with
  | nil => exact absurd rfl h
  | cons x xs =>
    show xs.foldl minStr x ∈ x :: xs
    rcases foldl_minStr_eq_or_mem xs x with he | hm
    · rw [he]; exact List.mem_cons_self _ _
    · exact List.mem_cons_of_mem _ hm

theorem lexMinD_not_lt (d : String) (l : List String) (x : String) (hx : x ∈ l) :
    strLtb x (lexMinD d l) = false := by
  cases l with
  | nil => cases hx
  | cons y ys =>
    show strLtb x (ys.foldl minStr y) = false
    rcases List.mem_cons.mp hx with rfl | hx
    · exact foldl_minStr_not_lt_acc ys x
    · exact foldl_minStr_not_lt ys y x hx

/-! ## Helper lemmas: frequencies and modes -/

theorem count_le_maxFreq (l : List String) (x : String) (hx : x ∈ l) :
    l.count x ≤ maxFreq l := by
  have hd : x ∈ l.dedup := List.mem_dedup.mpr hx
  have hmap : l.count x ∈ l.dedup.map fun y => l.count y := List.mem_map_of_mem _ hd
  exact le_listMaxD 0 _ _ hmap

theorem maxFreq_attained (l : List String) (h : l ≠ []) :
    ∃ x ∈ l.dedup, l.count x = maxFreq l := by
  have hd : l.dedup ≠ [] := by
    cases l with
    | nil => exact absurd rfl h
    | cons y ys =>
      have : y ∈ (y :: ys).dedup := List.mem_dedup.mpr (List.mem_cons_self y ys)
      exact List.ne_nil_of_mem this
  have hmapne : (l.dedup.map fun y => l.count y) ≠ [] := by
    cases hdd : l.dedup with
    | nil => exact absurd hdd hd
    | cons z zs => simp [hdd]
  have hmem : maxFreq l ∈ l.dedup.map fun y => l.count y := listMaxD_mem 0 _ hmapne
  rcases List.mem_map.mp hmem with ⟨x, hx, hcount⟩
  exact ⟨x, hx, hcount⟩

theorem mem_modesOf (l : List String) (x : String) :
    x ∈ modesOf l ↔ x ∈ l ∧ l.count x = maxFreq l := by
  unfold modesOf
  rw [List.mem_filter]
  constructor
  · rintro ⟨hd, hc⟩
    exact ⟨List.mem_dedup.mp hd, by exact of_decide_eq_true hc⟩
  · rintro ⟨hl, hc⟩
    exact ⟨List.mem_dedup.mpr hl, by exact decide_eq_true hc⟩

theorem modesOf_ne_nil (l : List String) (h : l ≠ []) : modesOf l ≠ [] := by
  rcases maxFreq_attained l h with ⟨x, hx, hc⟩
  have : x ∈ modesOf l := (mem_modesOf l x).mpr ⟨List.mem_dedup.mp hx, hc⟩
  exact List.ne_nil_of_mem this

/-- The central fact about `commonJob` (the model of `mode().iloc[0]`): on a
non-empty list of titles it returns a member with maximal count that precedes
every equally frequent title in code-point lexicographic order. -/
theorem commonJob_spec (l : List String) (h : l ≠ []) : ModeLexMin l (commonJob l) := by
  have hmne : modesOf l ≠ [] := modesOf_ne_nil l h
  have hmem : commonJob l ∈ modesOf l := lexMinD_mem "N/A" (modesOf l) hmne
  rcases (mem_modesOf l _).mp hmem with ⟨hinl, hcnt⟩
  refine ⟨hinl, ?_, ?_⟩
  · intro x hx
    rw [hcnt]
    exact count_le_maxFreq l x hx
  · intro x hx hcx
    have hxmode : x ∈ modesOf l := (mem_modesOf l x).mpr ⟨hx, by rw [hcx, hcnt]⟩
    exact lexMinD_not_lt "N/A" (modesOf l) x hxmode

/-! ## Helper lemmas: sorting, grouping and maxima -/

theorem mem_insertStr (x y : String) :
    ∀ (l : List String), y ∈ insertStr x l ↔ y = x ∨ y ∈ l := by
  intro l
  induction l with
  | nil => simp [insertStr]
  | cons z zs ih =>
    by_cases h : strLtb z x = true
    · simp only [insertStr, if_pos h, List.mem_cons, ih]
      tauto
    · simp only [insertStr, if_neg h, List.mem_cons]

theorem mem_sortStrs (l : List String) (x : String) : x ∈ sortStrs l ↔ x ∈ l := by
  induction l with
  | nil => simp [sortStrs]
  | cons y ys ih =>
    show x ∈ insertStr y (sortStrs ys) ↔ _
    rw [mem_insertStr, ih]
    exact (List.mem_cons).symm

theorem mem_statesOf (df : List Row) (s : String) :
    s ∈ statesOf df ↔ ∃ r ∈ df, r.state = s := by
  unfold statesOf
  rw [mem_sortStrs, List.mem_dedup, List.mem_map]

theorem stateRows_ne_nil (df : List Row) (s : String) (hs : s ∈ statesOf df) :
    stateRows df s ≠ [] := by
  rcases (mem_statesOf df s).mp hs with ⟨r, hr, hst⟩
  have : r ∈ stateRows df s :=
    List.mem_filter.mpr ⟨hr, by exact decide_eq_true hst⟩
  exact List.ne_nil_of_mem this

theorem le_maxSalary (g : List Row) (r : Row) (hr : r ∈ g) :
    r.median_salary ≤ maxSalary g :=
  le_listMaxD 0 _ _ (List.mem_map_of_mem _ hr)

theorem maxSalary_attained (g : List Row) (h : g ≠ []) :
    ∃ r ∈ g, r.median_salary = maxSalary g := by
  have hne : g.map Row.median_salary ≠ [] := by
    cases g with
    | nil => exact absurd rfl h
    | cons y ys => simp
  have hmem : maxSalary g ∈ g.map Row.median_salary := listMaxD_mem 0 _ hne
  rcases List.mem_map.mp hmem with ⟨r, hr, hsal⟩
  exact ⟨r, hr, hsal⟩

/-- Decomposition of a successful `List.find?`: the list splits around the
found element, and no earlier element satisfies the predicate. -/
theorem find?_decomp {α : Type} (p : α → Bool) :
    ∀ (l : List α) (r : α), l.find? p = some r →
      ∃ pre post, l = pre ++ r :: post ∧ p r = true ∧ ∀ x ∈ pre, p x = false := by
  intro l
  induction l with
  | nil => intro r h; simp [List.find?] at h
  | cons a l ih =>
    intro r h
    cases ha : p a with
    | true =>
      rw [List.find?_cons_of_pos _ ha] at h
      injection h with h
      subst h
      exact ⟨[], l, rfl, ha, by intro x hx; cases hx⟩
    | false =>
      rw [List.find?_cons_of_neg _ (by simp [ha])] at h
      rcases ih r h with ⟨pre, post, heq, hpr, hpre⟩
      refine ⟨a :: pre, post, by rw [heq]; rfl, hpr, ?_⟩
      intro x hx
      rcases List.mem_cons.mp hx with rfl | hx
      · exact ha
      · exact hpre x hx

/-! ## Helper lemmas: the filter engine as `List.filter` -/

theorem searchFilter_eq_filter (search_term : Option String) (df : List Row) :
    searchFilter search_term df = df.filter (searchPred search_term) := by
  cases search_term with
  | none =>
    show df = df.filter fun _ => true
    rw [List.filter_true]
  | some s =>
    show (if (!(s = "")) && (!(pyStrip s = "")) then
        df.filter fun r => strContainsCI r.job_title s
      else df) = _
    by_cases h : ((!(s = "")) && (!(pyStrip s = ""))) = true
    · rw [if_pos h]
      apply List.filter_congr
      intro r _
      show strContainsCI r.job_title s = searchPred (some s) r
      simp only [searchPred, if_pos h]
    · rw [if_neg h]
      have : (df.filter (searchPred (some s))) = df.filter fun _ => true := by
        apply List.filter_congr
        intro r _
        simp only [searchPred, if_neg h]
      rw [this, List.filter_true]

theorem industryFilter_eq_filter (selected_industry : String) (df : List Row) :
    industryFilter selected_industry df = df.filter (industryPred selected_industry) := by
  by_cases h : selected_industry ≠ "All Industries"
  · show (if selected_industry ≠ "All Industries" then _ else _) = _
    rw [if_pos h]
    apply List.filter_congr
    intro r _
    simp only [industryPred, if_pos h]
  · show (if selected_industry ≠ "All Industries" then _ else _) = _
    rw [if_neg h]
    have : (df.filter (industryPred selected_industry)) = df.filter fun _ => true := by
      apply List.filter_congr
      intro r _
      simp only [industryPred, if_neg h]
    rw [this, List.filter_true]

theorem filter_swap {α : Type} (p q : α → Bool) (l : List α) :
    (l.filter p).filter q = (l.filter q).filter p := by
  rw [List.filter_filter, List.filter_filter]
  apply List.filter_congr
  intro a _
  exact Bool.and_comm (q a) (p a)

theorem filterTable_eq_filter (df : List Row) (cat : String) (term : Option String) :
    filterTable df cat term = df.filter fun r => searchPred term r && industryPred cat r := by
  unfold filterTable
  rw [searchFilter_eq_filter, industryFilter_eq_filter, List.filter_filter]
  apply List.filter_congr
  intro a _
  exact (Bool.and_comm (searchPred term a) (industryPred cat a)).symm

/-! ## Helper lemmas: literal search patterns are substring tests -/

theorem tokMatch_lits :
    ∀ (p l : List Char), (∀ c ∈ p, c ≠ '.') → tokMatch (tokenize p) l = prefCI p l := by
  intro p
  induction p with
  | nil => intro l _; rfl
  | cons c cs ih =>
    intro l hp
    have hc : c ≠ '.' := hp c (List.mem_cons_self _ _)
    have hcs : ∀ x ∈ cs, x ≠ '.' := fun x hx => hp x (List.mem_cons_of_mem _ hx)
    have htok : tokenize (c :: cs) = Tok.lit c :: tokenize cs := by
      simp only [tokenize, List.map_cons, if_neg hc]
    rw [htok]
    cases l with
    | nil => rfl
    | cons x xs =>
      show ((lowerChar x = lowerChar c) && tokMatch (tokenize cs) xs)
          = ((lowerChar x = lowerChar c) && prefCI cs xs)
      rw [ih xs hcs]

theorem searchToks_lits :
    ∀ (l p : List Char), (∀ c ∈ p, c ≠ '.') → searchToks (tokenize p) l = substrAuxCI p l := by
  intro l
  induction l with
  | nil =>
    intro p hp
    show tokMatch (tokenize p) [] = prefCI p []
    exact tokMatch_lits p [] hp
  | cons x xs ih =>
    intro p hp
    show (tokMatch (tokenize p) (x :: xs) || searchToks (tokenize p) xs)
        = (prefCI p (x :: xs) || substrAuxCI p xs)
    rw [tokMatch_lits p (x :: xs) hp, ih p hp]

theorem strContainsCI_eq_substrCI (title pat : String)
    (h : ∀ c ∈ pat.data, isRegexSpecialChar c = false) :
    strContainsCI title pat = substrCI title pat := by
  have hnd : ∀ c ∈ pat.data, c ≠ '.' := by
    intro c hc hdot
    have := h c hc
    rw [hdot] at this
    simp [isRegexSpecialChar] at this
  exact searchToks_lits title.data pat.data hnd

/-! ## Helper lemmas: state extraction and the loader pipeline -/

theorem startsWithComma_iff (l : List Char) :
    startsWithComma l = true ↔ ∃ t, l = ',' :: t := by
  cases l with
  | nil => simp [startsWithComma]
  | cons c t => simp [startsWithComma]

/-- A successful state extraction exposes the shape the regex
`,\s*([A-Z]{2})$` demands: the location splits as an arbitrary prefix, a
comma, optional whitespace, then exactly the two captured uppercase letters
ending the string. -/
theorem extractState_shape (loc st : String) (h : extractState loc = some st) :
    ∃ pre ws, loc.data = pre ++ ',' :: (ws ++ st.data) ∧
      (∀ c ∈ ws, isPyWhitespace c = true) ∧
      st.data.length = 2 ∧ (∀ c ∈ st.data, isUpperAZ c = true) := by
  unfold extractState at h
  split at h
  · rename_i c1 c2 rest hrev
    by_cases hcond :
        (isUpperAZ c1 && isUpperAZ c2 && startsWithComma (rest.dropWhile isPyWhitespace)) = true
    · rw [if_pos hcond] at h
      injection h with h
      subst h
      simp only [Bool.and_eq_true] at hcond
      obtain ⟨⟨h1, h2⟩, h3⟩ := hcond
      rcases (startsWithComma_iff _).mp h3 with ⟨tail, hdw⟩
      have hsplit : rest.takeWhile isPyWhitespace ++ (',' :: tail) = rest := by
        rw [← hdw]
        exact List.takeWhile_append_dropWhile isPyWhitespace rest
      have hws : ∀ c ∈ rest.takeWhile isPyWhitespace, isPyWhitespace c = true :=
        fun c hc => List.mem_takeWhile_imp hc
      have hloc : loc.data = (c1 :: c2 :: rest).reverse := by
        rw [← hrev, List.reverse_reverse]
      generalize hTW : rest.takeWhile isPyWhitespace = tw at hsplit hws
      refine ⟨tail.reverse, tw.reverse, ?_, ?_, rfl, ?_⟩
      · rw [hloc, ← hsplit]
        simp [List.reverse_cons, List.reverse_append, List.append_assoc]
      · intro c hc
        exact hws c (List.mem_reverse.mp hc)
      · intro c hc
        rcases List.mem_cons.mp hc with rfl | hc
        · exact h2
        · rcases List.mem_cons.mp hc with rfl | hc
          · exact h1
          · cases hc
    · rw [if_neg hcond] at h; cases h
  · cases h

/-- Every row of the cleaned pipeline output carries the state its own
location extracts to: state extraction succeeded on it, and rows on which it
fails never reach the output. -/
theorem mem_prepareData_extract (mains : List MainRow) (sals : List SalaryRow) (r : Row)
    (hr : r ∈ prepareData mains sals) : extractState r.location = some r.state := by
  simp only [prepareData] at hr
  have hr2 := (List.mem_filter.mp hr).1
  rcases List.mem_filterMap.mp hr2 with ⟨c, _, hadd⟩
  simp only [addState] at hadd
  cases hex : extractState c.location with
  | none => rw [hex] at hadd; cases hadd
  | some st =>
    rw [hex] at hadd
    simp only [Option.map_some'] at hadd
    injection hadd with hadd
    subst hadd
    exact hex

/-! ## Claim theorems -/

/-- C2: for every input row, the cleaned `median_salary` equals the raw salary
times 2080 when `pay_period` is HOURLY, times 12 when it is MONTHLY, and
equals the raw salary unchanged for every other `pay_period` value. -/
theorem C2_standardize_salary (r : CleanRow) :
    (r.pay_period = "HOURLY" → (applyStandardize r).median_salary = r.median_salary * 2080) ∧
    (r.pay_period = "MONTHLY" → (applyStandardize r).median_salary = r.median_salary * 12) ∧
    (r.pay_period ≠ "HOURLY" → r.pay_period ≠ "MONTHLY" →
      (applyStandardize r).median_salary = r.median_salary) := by
  refine ⟨?_, ?_, ?_⟩
  · intro h
    simp [applyStandardize, standardize_salary, h]
  · intro h
    simp [applyStandardize, standardize_salary, h]
  · intro h1 h2
    simp [applyStandardize, standardize_salary, h1, h2]

/-- Witness for C2: an hourly salary of 50 is annualized to 50 * 2080
(Scenario B of the specification). -/
theorem C2_standardize_salary_witness :
    (applyStandardize ⟨"Boston, MA", "Data Analyst", "Tech", 50, "HOURLY"⟩).median_salary
      = 50 * 2080 :=
  (C2_standardize_salary ⟨"Boston, MA", "Data Analyst", "Tech", 50, "HOURLY"⟩).1 rfl

/-- C5: whenever the filters leave no rows, the callback returns the explicit
no-data result carrying the two "N/A" card strings (an early return, with no
aggregation attempted and no exception), for every search term in the
supported pattern fragment and every category. -/
theorem C5_empty_result_no_data (df : List Row) (cat : String) (term : Option String)
    (_hsup : supportedTerm term = true) (hempty : filterTable df cat term = []) :
    update_map_and_cards df cat term = UpdateResult.noData "N/A" "N/A" ∨
    update_map_and_cards df cat term = UpdateResult.noMatches "N/A" "N/A" := by
  by_cases hdf : df = []
  · left
    simp [update_map_and_cards, hdf]
  · right
    simp [update_map_and_cards, hdf, hempty]

/-- Witness for C5: a search term matching no job title yields the
no-matches result. -/
theorem C5_empty_result_no_data_witness :
    supportedTerm (some "zzz") = true ∧
      filterTable [sampleRow] "All Industries" (some "zzz") = [] ∧
      (update_map_and_cards [sampleRow] "All Industries" (some "zzz")
          = UpdateResult.noData "N/A" "N/A" ∨
        update_map_and_cards [sampleRow] "All Industries" (some "zzz")
          = UpdateResult.noMatches "N/A" "N/A") :=
  ⟨by decide, by decide,
    C5_empty_result_no_data [sampleRow] "All Industries" (some "zzz") (by decide) (by decide)⟩

/-- C6 counterexample: a present-but-unreadable source file raises an
exception class other than `FileNotFoundError`, which the handler at page2.py
line 43 does not catch — the failure propagates to the caller instead of
yielding an empty table, refuting the claim for the "unreadable" case. -/
theorem C6_unreadable_cex :
    load_and_prepare_data ReadOutcome.unreadable = Except.error "uncaught read exception" := rfl

/-- C6 (amended): when a source dataset is missing from disk
(`FileNotFoundError`), `load_and_prepare_data` returns the explicitly empty
table and does not propagate the exception. -/
theorem C6_missing_file_empty :
    load_and_prepare_data ReadOutcome.fileNotFound = Except.ok [] := rfl

/-- C8: the search and category predicates commute — filtering by category
then search equals filtering by search then category — and the full filter is
the conjunction of the two row predicates. -/
theorem C8_filter_commute (df : List Row) (cat : String) (term : Option String) :
    industryFilter cat (searchFilter term df) = searchFilter term (industryFilter cat df) ∧
    filterTable df cat term = df.filter fun r => searchPred term r && industryPred cat r := by
  constructor
  · calc industryFilter cat (searchFilter term df)
        = (df.filter (searchPred term)).filter (industryPred cat) := by
          rw [searchFilter_eq_filter, industryFilter_eq_filter]
      _ = (df.filter (industryPred cat)).filter (searchPred term) :=
          filter_swap (searchPred term) (industryPred cat) df
      _ = searchFilter term (industryFilter cat df) := by
          rw [industryFilter_eq_filter, searchFilter_eq_filter]
  · exact filterTable_eq_filter df cat term

/-- C9: applying the same `(search_term, category)` filter twice yields the
same table as applying it once (the embedding is purely functional, so the
cached cleaned table is never mutated by a filter or aggregation call). -/
theorem C9_filter_idempotent (df : List Row) (cat : String) (term : Option String) :
    filterTable (filterTable df cat term) cat term = filterTable df cat term := by
  rw [filterTable_eq_filter, filterTable_eq_filter, List.filter_filter]
  apply List.filter_congr
  intro a _
  exact Bool.and_self _

/-- C10: the filtered table is an order-preserving subsequence of the input
table, which is what makes the first-in-row-order tie-break rules well
defined on it. -/
theorem C10_filter_sublist (df : List Row) (cat : String) (term : Option String) :
    (filterTable df cat term).Sublist df := by
  rw [filterTable_eq_filter]
  exact List.filter_sublist df

/-- C1 counterexample: with job titles ["Data Scientist", "Data Analyst"]
tied at one occurrence each, the callback's overall most-common-job is
"Data Analyst" — the lexicographically least tied title (pandas `mode()`
returns the tied values sorted) — while the first tied title in table row
order is "Data Scientist"; the claimed first-in-row-order tie-break is
therefore not what the code computes. -/
theorem C1_mode_tie_cex :
    overallCommonOf (update_map_and_cards [rowDS, rowDA] "All Industries" none)
        = some "Data Analyst" ∧
      firstRowOrderMode ([rowDS, rowDA].map Row.job_title) = some "Data Scientist" ∧
      ("Data Analyst" : String) ≠ "Data Scientist" := by
  refine ⟨?_, ?_, ?_⟩ <;> decide

/-- C1 (amended): both per state and overall, the most-frequent-job-title
computations pick, among the job titles sharing the maximum frequency, the
lexicographically least one (by code point, the order in which pandas sorts
the modes) — a deterministic choice on every run, being a pure function of
the filtered table. -/
theorem C1_mode_lexmin (df : List Row) (s : String) (hs : s ∈ statesOf df) :
    ModeLexMin ((stateRows df s).map Row.job_title) (aggRow df s).common_job ∧
      (df ≠ [] → ModeLexMin (df.map Row.job_title) (commonJob (df.map Row.job_title))) := by
  constructor
  · have hne : (stateRows df s).map Row.job_title ≠ [] := by
      cases hsr : stateRows df s with
      | nil => exact absurd hsr (stateRows_ne_nil df s hs)
      | cons a l => simp
    show ModeLexMin ((stateRows df s).map Row.job_title)
      (commonJob ((stateRows df s).map Row.job_title))
    exact commonJob_spec _ hne
  · intro hdf
    have hne : df.map Row.job_title ≠ [] := by
      cases df with
      | nil => exact absurd rfl hdf
      | cons a l => simp
    exact commonJob_spec _ hne

/-- Witness for C1 (amended), at the two-row tied table. -/
theorem C1_mode_lexmin_witness :
    "NY" ∈ statesOf [rowDS, rowDA] ∧
      (ModeLexMin ((stateRows [rowDS, rowDA] "NY").map Row.job_title)
          (aggRow [rowDS, rowDA] "NY").common_job ∧
        ([rowDS, rowDA] ≠ ([] : List Row) →
          ModeLexMin ([rowDS, rowDA].map Row.job_title)
            (commonJob ([rowDS, rowDA].map Row.job_title)))) :=
  ⟨by decide, C1_mode_lexmin [rowDS, rowDA] "NY" (by decide)⟩

/-- C3 counterexample: with the search term "." the filter keeps a row whose
job title contains no '.' at all, because `str.contains` interprets the term
as a regular expression ('.' matches any character) rather than as a literal
substring; the claim fails for terms containing regex metacharacters. -/
theorem C3_regex_cex :
    searchFilter (some ".") [sampleRow] = [sampleRow] ∧
      substrCI sampleRow.job_title "." = false := by
  refine ⟨?_, ?_⟩ <;> decide

/-- C3 (amended): for a present, non-blank search term none of whose
characters is a regex metacharacter, the search filter keeps exactly the rows
whose `job_title` contains the term as a case-insensitive substring; in
general the term is interpreted as a case-insensitive regular expression. -/
theorem C3_literal_substring (df : List Row) (s : String)
    (hlit : ∀ c ∈ s.data, isRegexSpecialChar c = false)
    (hne : pyStrip s ≠ "") (r : Row) :
    r ∈ searchFilter (some s) df ↔ r ∈ df ∧ substrCI r.job_title s = true := by
  have hsne : s ≠ "" := by
    intro h
    rw [h] at hne
    exact hne rfl
  have hcond : ((!(s = "")) && (!(pyStrip s = ""))) = true := by
    simp [hsne, hne]
  show r ∈ (if (!(s = "")) && (!(pyStrip s = "")) then
      df.filter fun q => strContainsCI q.job_title s else df) ↔ _
  rw [if_pos hcond, List.mem_filter, strContainsCI_eq_substrCI r.job_title s hlit]

/-- Witness for C3 (amended), at a literal search term. -/
theorem C3_literal_substring_witness :
    (∀ c ∈ ("data" : String).data, isRegexSpecialChar c = false) ∧
      pyStrip "data" ≠ "" ∧
      (sampleRow ∈ searchFilter (some "data") [sampleRow] ↔
        sampleRow ∈ [sampleRow] ∧ substrCI sampleRow.job_title "data" = true) :=
  ⟨by decide, by decide,
    C3_literal_substring [sampleRow] "data" (by decide) (by decide) sampleRow⟩

/-- C4: in every state group of a filtered table, `highest_paid_job` is the
job title of a row attaining the group's maximum `median_salary`, and that
row is the first such row in the filtered table's row order (every earlier
row of the group has a strictly smaller salary). -/
theorem C4_highest_paid_first_max (df : List Row) (s : String) (hs : s ∈ statesOf df) :
    ∃ pre r post, stateRows df s = pre ++ r :: post ∧
      (aggRow df s).highest_paid_job = r.job_title ∧
      r.median_salary = (aggRow df s).max_salary ∧
      (∀ q ∈ stateRows df s, q.median_salary ≤ r.median_salary) ∧
      (∀ q ∈ pre, q.median_salary < r.median_salary) := by
  have hne := stateRows_ne_nil df s hs
  rcases maxSalary_attained (stateRows df s) hne with ⟨r0, hr0, hsal⟩
  have hsome : ((stateRows df s).find? fun q =>
      q.median_salary = maxSalary (stateRows df s)).isSome = true :=
    List.find?_isSome.mpr ⟨r0, hr0, decide_eq_true hsal⟩
  obtain ⟨r, hfind⟩ := Option.isSome_iff_exists.mp hsome
  rcases find?_decomp _ (stateRows df s) r hfind with ⟨pre, post, hsplitg, hpr, hpre⟩
  have hrsal : r.median_salary = maxSalary (stateRows df s) := of_decide_eq_true hpr
  refine ⟨pre, r, post, hsplitg, ?_, ?_, ?_, ?_⟩
  · show (((stateRows df s).find? fun q =>
        q.median_salary = maxSalary (stateRows df s)).map Row.job_title).getD "N/A"
      = r.job_title
    rw [hfind]
    rfl
  · exact hrsal
  · intro q hq
    rw [hrsal]
    exact le_maxSalary _ q hq
  · intro q hq
    have hqg : q ∈ stateRows df s := by
      rw [hsplitg]
      exact List.mem_append_left _ hq
    have hqle : q.median_salary ≤ maxSalary (stateRows df s) := le_maxSalary _ q hqg
    have hqne : q.median_salary ≠ maxSalary (stateRows df s) := by
      intro he
      have := hpre q hq
      rw [decide_eq_true he] at this
      cases this
    rw [hrsal]
    exact lt_of_le_of_ne hqle hqne

/-- Witness for C4, at Scenario E of the specification: salaries 80000 and
120000 in state "NY" with titles "X" and "Y". -/
theorem C4_highest_paid_first_max_witness :
    "NY" ∈ statesOf [rowX, rowY] ∧
      ∃ pre r post, stateRows [rowX, rowY] "NY" = pre ++ r :: post ∧
        (aggRow [rowX, rowY] "NY").highest_paid_job = r.job_title ∧
        r.median_salary = (aggRow [rowX, rowY] "NY").max_salary ∧
        (∀ q ∈ stateRows [rowX, rowY] "NY", q.median_salary ≤ r.median_salary) ∧
        (∀ q ∈ pre, q.median_salary < r.median_salary) :=
  ⟨by decide, C4_highest_paid_first_max [rowX, rowY] "NY" (by decide)⟩

/-- C7: every row of a table returned by `load_and_prepare_data` has a
non-null two-uppercase-letter `state` that is exactly the pair of letters
following a comma and optional whitespace at the end of its `location`
string; rows whose location fails the pattern never appear in the output. -/
theorem C7_state_invariant (o : ReadOutcome) (rows : List Row) (r : Row)
    (hload : load_and_prepare_data o = Except.ok rows) (hr : r ∈ rows) :
    extractState r.location = some r.state ∧
      (∃ pre ws, r.location.data = pre ++ ',' :: (ws ++ r.state.data) ∧
        (∀ c ∈ ws, isPyWhitespace c = true)) ∧
      r.state.data.length = 2 ∧ (∀ c ∈ r.state.data, isUpperAZ c = true) := by
  have hex : extractState r.location = some r.state := by
    cases o with
    | fileNotFound =>
      have h : ([] : List Row) = rows := by
        injection hload
      rw [← h] at hr
      cases hr
    | unreadable => exact Except.noConfusion hload
    | ok mainCols salaryCols mains sals =>
      have hload2 :
          (if (requiredColumns.all fun c => (mainCols ++ salaryCols).contains c) = true
            then Except.ok (prepareData mains sals)
            else Except.ok ([] : List Row)) = Except.ok rows := hload
      by_cases hcols :
          (requiredColumns.all fun c => (mainCols ++ salaryCols).contains c) = true
      · rw [if_pos hcols] at hload2
        have h : prepareData mains sals = rows := by
          injection hload2
        rw [← h] at hr
        exact mem_prepareData_extract mains sals r hr
      · rw [if_neg hcols] at hload2
        have h : ([] : List Row) = rows := by
          injection hload2
        rw [← h] at hr
        cases hr
  rcases extractState_shape r.location r.state hex with ⟨pre, ws, heq, hws, hlen, hupper⟩
  exact ⟨hex, ⟨pre, ws, heq, hws⟩, hlen, hupper⟩

/-- Witness for C7, at a one-row load whose location is "New York, NY". -/
theorem C7_state_invariant_witness :
    sampleRow ∈ [sampleRow] ∧
      (extractState sampleRow.location = some sampleRow.state ∧
        (∃ pre ws, sampleRow.location.data = pre ++ ',' :: (ws ++ sampleRow.state.data) ∧
          (∀ c ∈ ws, isPyWhitespace c = true)) ∧
        sampleRow.state.data.length = 2 ∧ (∀ c ∈ sampleRow.state.data, isUpperAZ c = true)) :=
  ⟨by decide,
    C7_state_invariant
      (ReadOutcome.ok mainColsSample salaryColsSample [sampleMain] [sampleSalary])
      [sampleRow] sampleRow rfl (by decide)⟩
